import Mathlib

/-!
Verification development for the `peri`/`cbamf` colloid-fitting repository.

The Python source is shallowly embedded: numpy array expressions become
pointwise real-valued functions, stateful classes become explicit state
records with transition functions, fallible code returns `Except`.
Machine floats are modelled by real numbers, so float-level equalities
become exact real equalities.
-/

open scoped BigOperators
open scoped Classical

noncomputable section

/-! ## Numpy-style primitives -/

/-- `np.clip(x, lo, hi)` for scalars: `min (max x lo) hi`. -/
def npClipR (x lo hi : ℝ) : ℝ := min (max x lo) hi

/-- Integer clip, same shape as `np.clip` on integer values. -/
def npClipInt (x lo hi : ℤ) : ℤ := min (max x lo) hi

/-- `np.round` on a scalar: round half to even (IEEE banker's rounding),
which is what numpy implements, unlike `round` in Mathlib (half away
from the floor).  On a tie `x = m + 1/2` numpy returns the even member
of `{m, m+1}`; otherwise the unique nearest integer. -/
def npRound (x : ℝ) : ℤ :=
  if Int.fract x = 1/2 then (if Even ⌊x⌋ then ⌊x⌋ else ⌊x⌋ + 1) else round x

/-- Indicator of a proposition, numpy boolean-array arithmetic (`True`
multiplies as 1, `False` as 0). -/
def ind (p : Prop) [Decidable p] : ℝ := if p then 1 else 0

/-! ## `peri.comp.objs`: sphere edge kernels (pointwise embedding)

Each numpy function on arrays is elementwise; we embed it at a single
signed distance `dr`.  Boolean masks multiply as 0/1 indicators. -/

/-- The error function, `scipy.special.erf`. -/
def erf (x : ℝ) : ℝ := 2 / Real.sqrt Real.pi * ∫ t in (0:ℝ)..x, Real.exp (-t^2)

/-- `sphere_bool(dr, a, alpha) = 1.0*(dr < 0)`. -/
def sphere_bool (dr _a _alpha : ℝ) : ℝ := ind (dr < 0)

/-- `sphere_lerp`: `1 - clip((dr+alpha)/(2 alpha), 0, 1)`. -/
def sphere_lerp (dr _a alpha : ℝ) : ℝ :=
  1 - npClipR ((dr + alpha) / (2*alpha)) 0 1

/-- `sphere_logistic`: `1/(1 + exp(alpha*dr))`. -/
def sphere_logistic (dr _a alpha : ℝ) : ℝ :=
  1 / (1 + Real.exp (alpha * dr))

/-- `sphere_triangle_cdf`: two quadratic pieces gated by strict
comparisons, then `1 - clip(p0+p1, 0, 1)`. -/
def sphere_triangle_cdf (dr _a alpha : ℝ) : ℝ :=
  let p0 := (dr + alpha)^2 / (2*alpha^2) * ind (0 > dr) * ind (dr > -alpha)
  let p1 := ind (dr > 0) - (alpha - dr)^2 / (2*alpha^2) * ind (0 < dr) * ind (dr < alpha)
  1 - npClipR (p0 + p1) 0 1

/-- `sphere_analytical_gaussian` (default `alpha = 0.2765`):
step function convolved against a Gaussian, closed form with `erf`. -/
def sphere_analytical_gaussian (dr a alpha : ℝ) : ℝ :=
  let term1 := 0.5 * (erf ((dr + 2*a) / (alpha * Real.sqrt 2))
    + erf (-dr / (alpha * Real.sqrt 2)))
  let term2 := Real.sqrt (0.5 / Real.pi) * (alpha / (dr + a + 1e-10)) *
    (Real.exp (-0.5 * dr^2 / alpha^2) - Real.exp (-0.5 * (dr + 2*a)^2 / alpha^2))
  term1 - term2

/-- `sphere_analytical_gaussian_trim` (defaults `alpha = 0.2765`,
`cut = 1.6`): on the mask `|dr| <= cut` the trimmed closed form `q`; the
overrides `ans[dr > cut] = 0` and `ans[dr < -cut] = 1` fill the rest. -/
def sphere_analytical_gaussian_trim (dr a alpha cut : ℝ) : ℝ :=
  if |dr| ≤ cut then
    let t := -dr / (alpha * Real.sqrt 2)
    0.5 * (1 + erf t) - Real.sqrt (0.5 / Real.pi) * (alpha / (dr + a + 1e-10)) *
      Real.exp (-t * t)
  else if dr > cut then 0 else 1

/-- `sphere_constrained_cubic` (default `alpha = 0.84990`): cubic
interpolant pinned to (1,0) at `∓ sqrt(3)/2`, after clamping `dr`. -/
def sphere_constrained_cubic (dr a alpha : ℝ) : ℝ :=
  let sqrt3 := Real.sqrt 3
  let b_coeff := a * 0.5 / sqrt3 * (1 - 0.6 * sqrt3 * alpha) / (0.15 + a*a)
  let rscl := npClipR dr (-(0.5*sqrt3)) (0.5*sqrt3)
  let aa := rscl + 0.5*sqrt3
  let d := rscl - 0.5*sqrt3
  alpha*d*aa*rscl + b_coeff*d*aa - d/sqrt3

/-! ## Module-load fallback for `sphere_analytical_gaussian_fast`

The body of the Python `sphere_analytical_gaussian_fast` assigns the two
string literals `functions` and `code` and then executes `shape = r.shape`.
The name `r` is not a parameter, not a previously assigned local, and not
a global of the module, so this load raises `NameError` before the inlined
C code ever runs (`self` at `N = self.N` is likewise undefined).  The
module-level `try` then rebinds the name to
`sphere_analytical_gaussian_trim`.  We model Python name resolution for
that first load against the explicit name environment. -/

/-- Module-level names of `peri.comp.objs` bound at the time of the
load-time self-test call (imports plus the defs preceding the `try`). -/
def objsModuleNames : List String :=
  ["np", "erf", "inline", "expm3", "Component", "Tile", "cdd", "amin",
   "amax", "listify", "delistify", "MAX_VOLUME_ITERATIONS", "norm",
   "inner", "sphere_bool", "sphere_lerp", "sphere_logistic",
   "sphere_triangle_cdf", "sphere_analytical_gaussian",
   "sphere_analytical_gaussian_trim", "sphere_analytical_gaussian_fast"]

/-- Names bound in the scope of `sphere_analytical_gaussian_fast` when
its statement `shape = r.shape` executes: the four parameters and the two
string locals assigned earlier in the body. -/
def fastBodyBoundNames : List String :=
  ["dr", "a", "alpha", "cut", "functions", "code"]

/-- Whether the load-time self-test call raises: `shape = r.shape` looks
up the name `r`, which must fail (NameError) iff `r` is in no enclosing
scope. -/
def fastSelfTestRaises : Bool :=
  !((fastBodyBoundNames ++ objsModuleNames).contains "r")

/-- The function the module name `sphere_analytical_gaussian_fast` is
bound to after import: the `except` clause rebinds it to
`sphere_analytical_gaussian_trim` exactly when the self-test raised.
The native branch is unreachable — `fastSelfTestRaises` is proved `true`
below — so no model of the inlined C code is required or given. -/
def sphere_analytical_gaussian_fast (dr a alpha cut : ℝ) : ℝ :=
  if fastSelfTestRaises then sphere_analytical_gaussian_trim dr a alpha cut
  else 0

/-! ## `PlatonicSpheresCollection` (peri/comp/objs.py)

The dense field `particles` (a numpy array of extent `shape`) is embedded
as a total function on integer voxel coordinates `Fin 3 → ℤ`; a particle's
drawn contribution vanishes outside its clipped support tile, matching
`particles[tile.slicer] += t`.  The `Tile` region class (peri.util, not in
the source) is modelled from the spec: an axis-aligned integer box clipped
to `[0, shape)`, with `coords` the voxel coordinates themselves. -/

/-- `norm(a)` of objs.py on a 3-vector. -/
def vecNorm (a : Fin 3 → ℝ) : ℝ := Real.sqrt (∑ i, a i ^ 2)

/-- `inner(r, p, a, zscale)`: anisotropic signed distance to the sphere
surface, negative inside (`np.sign(0) = 0 = Real.sign 0`). -/
def innerSD (r p : Fin 3 → ℝ) (a zscale : ℝ) : ℝ :=
  let s : Fin 3 → ℝ := ![zscale, 1, 1]
  let d : Fin 3 → ℝ := fun i => (r i - p i - 1e-8) * s i
  let n := vecNorm d
  let o := vecNorm (fun i => (d i - a * (d i / n)) / s i)
  o * Real.sign (n - a)

def MAX_VOLUME_ITERATIONS : ℕ := 10

/-- One pass of the `exact_volume_sphere` iteration: check current volume
against the goal, update the effective radius, bail out on a too-large
radius change, re-render.  `fuel` counts remaining `range` iterations. -/
def evsLoop (pts : Finset (Fin 3 → ℤ)) (pos : Fin 3 → ℝ)
    (radius zscale volume_error max_radius_change vol_goal : ℝ)
    (f : ℝ → ℝ → ℝ) : ℕ → ℝ → ((Fin 3 → ℤ) → ℝ) → ((Fin 3 → ℤ) → ℝ)
  | 0, _, t => t
  | fuel+1, rprime, t =>
    let vol_curr := |∑ x in pts, t x|
    if |vol_goal - vol_curr| / vol_goal < volume_error then t
    else
      let rp := rprime + 1.0 * (vol_goal - vol_curr) / (4 * Real.pi * rprime^2)
      if |rp - radius| / radius > max_radius_change then t
      else
        evsLoop pts pos radius zscale volume_error max_radius_change vol_goal f
          fuel rp (fun x => f (innerSD (fun i => (x i : ℝ)) pos rp zscale) rp)

/-- `exact_volume_sphere(rvec, pos, radius, zscale, volume_error,
function, max_radius_change, args)` restricted to the tile's voxel set
`pts`; `f dr a` is the drawing function with its `alpha` arguments
already applied. -/
def exact_volume_sphere (pts : Finset (Fin 3 → ℤ)) (pos : Fin 3 → ℝ)
    (radius zscale volume_error : ℝ) (f : ℝ → ℝ → ℝ)
    (max_radius_change : ℝ) : (Fin 3 → ℤ) → ℝ :=
  let vol_goal := 4/3 * Real.pi * radius^3 / zscale
  let t0 := fun x => f (innerSD (fun i => (x i : ℝ)) pos radius zscale) radius
  evsLoop pts pos radius zscale volume_error max_radius_change vol_goal f
    MAX_VOLUME_ITERATIONS radius t0

/-- Static configuration of a `PlatonicSpheresCollection`: field shape,
support padding, the padded-frame offset `self.inner.l` (the aggregator's
inner tile corner, an external quantity), the chosen sphere function with
`alpha` applied, and the exact-volume options. -/
structure SpheresConfig where
  shape : Fin 3 → ℤ
  support_pad : ℤ
  innerL : Fin 3 → ℝ
  f : ℝ → ℝ → ℝ
  exact_volume : Bool
  volume_error : ℝ
  max_radius_change : ℝ

/-- The support tile of `_draw_particle`: `p = round(trans(pos))`,
`r = round([1/zscale,1,1]*ceil(rad) + support_pad)`, box `[p-r, p+r)`
clipped to `[0, shape)` (Tile's bounding behaviour, from the spec). -/
def drawTile (cfg : SpheresConfig) (zscale : ℝ) (tpos : Fin 3 → ℝ)
    (rad : ℝ) : Finset (Fin 3 → ℤ) :=
  let p : Fin 3 → ℤ := fun i => npRound (tpos i)
  let r : Fin 3 → ℤ :=
    fun i => npRound ((![1/zscale, (1:ℝ), 1]) i * (⌈rad⌉ : ℝ) + (cfg.support_pad : ℝ))
  Fintype.piFinset fun i => Finset.Ico (max (p i - r i) 0) (min (p i + r i) (cfg.shape i))

/-- The contribution a single call `_draw_particle(pos, rad, sign=+1)`
adds to the `particles` field: zero for a zero-radius particle (the
draw aborts), zero outside the support tile, and inside it the chosen
kernel (or the exact-volume iteration) evaluated at the voxel. -/
def drawContrib (cfg : SpheresConfig) (zscale : ℝ) (pos : Fin 3 → ℝ)
    (rad : ℝ) : (Fin 3 → ℤ) → ℝ :=
  if rad = 0 then fun _ => 0
  else
    let tpos := fun i => pos i + cfg.innerL i
    let pts := drawTile cfg zscale tpos rad
    let t : (Fin 3 → ℤ) → ℝ :=
      if cfg.exact_volume then
        exact_volume_sphere pts tpos rad zscale cfg.volume_error cfg.f
          cfg.max_radius_change
      else fun x => cfg.f (innerSD (fun i => (x i : ℝ)) tpos rad zscale) rad
    fun x => if x ∈ pts then t x else 0

/-- Mutable state of a `PlatonicSpheresCollection` with `n` particles:
positions (rows in `z,y,x` order), radii, `zscale`, and the accumulated
`particles` field. -/
structure SpheresCollection (n : ℕ) where
  pos : Fin n → Fin 3 → ℝ
  rad : Fin n → ℝ
  zscale : ℝ
  particles : (Fin 3 → ℤ) → ℝ

/-- A parsed parameter name `prefix-i-c` (`_p2i`): a position coordinate
(axis in array order `0=z, 1=y, 2=x`), a radius, or the bare `zscale`. -/
inductive SphParam (n : ℕ) where
  | coordP : Fin n → Fin 3 → SphParam n
  | radP : Fin n → SphParam n
  | zscaleP : SphParam n
deriving DecidableEq

/-- The particle index a parameter refers to (`None` for `zscale`). -/
def SphParam.index {n : ℕ} : SphParam n → Option (Fin n)
  | .coordP i _ => some i
  | .radP i => some i
  | .zscaleP => none

namespace SpheresCollection

/-- One assignment of `set_values`. -/
def setValue {n : ℕ} (s : SpheresCollection n) (p : SphParam n) (v : ℝ) :
    SpheresCollection n :=
  match p with
  | .coordP i ax =>
      { s with pos := Function.update s.pos i (Function.update (s.pos i) ax v) }
  | .radP i => { s with rad := Function.update s.rad i v }
  | .zscaleP => { s with zscale := v }

/-- `set_values(params, values)`: zip and assign in order. -/
def setValuesL {n : ℕ} (s : SpheresCollection n)
    (L : List (SphParam n × ℝ)) : SpheresCollection n :=
  L.foldl (fun st pv => setValue st pv.1 pv.2) s

def set_values {n : ℕ} (s : SpheresCollection n) (ps : List (SphParam n))
    (vs : List ℝ) : SpheresCollection n :=
  setValuesL s (ps.zip vs)

/-- `_update_type`: whether `zscale` is among the parameters. -/
def dozscale {n : ℕ} (ps : List (SphParam n)) : Bool :=
  ps.any fun p => p = SphParam.zscaleP

/-- `_update_type`: the set of particle indices named by the parameters. -/
def affected {n : ℕ} (ps : List (SphParam n)) : Finset (Fin n) :=
  ps.foldr (fun p acc => match p.index with | some i => insert i acc | none => acc) ∅

/-- The superposition of every current particle's drawn contribution. -/
def totalField {n : ℕ} (cfg : SpheresConfig) (s : SpheresCollection n) :
    (Fin 3 → ℤ) → ℝ :=
  fun x => ∑ i, drawContrib cfg s.zscale (s.pos i) (s.rad i) x

/-- `initialize()`: zero the field and draw every particle (a zero-start
`+=` loop over the particles is their sum). -/
def initField {n : ℕ} (cfg : SpheresConfig) (s : SpheresCollection n) :
    SpheresCollection n :=
  { s with particles := totalField cfg s }

/-- `update(params, values)`: full rebuild when `zscale` changes;
otherwise erase each affected particle at its old position/radius
(`sign=-1`), apply the new values, and redraw it (`sign=+1`).  The
Python loop accumulates `+=` over a set of indices, i.e. adds the sum. -/
def update {n : ℕ} (cfg : SpheresConfig) (s : SpheresCollection n)
    (ps : List (SphParam n)) (vs : List ℝ) : SpheresCollection n :=
  if dozscale ps then initField cfg (set_values s ps vs)
  else
    let aff := affected ps
    let erased : SpheresCollection n :=
      { s with particles := fun x =>
          s.particles x + ∑ i in aff, -1 * drawContrib cfg s.zscale (s.pos i) (s.rad i) x }
    let s1 := set_values erased ps vs
    { s1 with particles := fun x =>
        s1.particles x + ∑ i in aff, drawContrib cfg s1.zscale (s1.pos i) (s1.rad i) x }

/-- `remove_particle(ind)` for a standalone collection (no parent
aggregator).  Modelled from the spec: the `trigger_update` /
`trigger_parameter_change` hooks only notify an optional parent, so with
no parent they mutate nothing; the `if not self._parent` branch then
performs the single explicit erase at the saved position and radius,
after the row deletion. -/
def remove_particle {n : ℕ} (cfg : SpheresConfig)
    (s : SpheresCollection (n+1)) (ind : Fin (n+1)) : SpheresCollection n :=
  { pos := fun j => s.pos (ind.succAbove j)
    rad := fun j => s.rad (ind.succAbove j)
    zscale := s.zscale
    particles := fun x =>
      s.particles x + -1 * drawContrib cfg s.zscale (s.pos ind) (s.rad ind) x }

/-- `add_particle(pos, rad)` for a standalone collection (no parent).
Modelled from the spec as in `remove_particle`: the trailing
`trigger_update` (which would grow the stored radius from its appended
placeholder `0.0` to `rad` through a parent) is a no-op, while the
explicit `_draw_particle(pos, rad, +1)` branch draws the full-radius
contribution.  An empty collection stores `[rad]` directly. -/
def add_particle {n : ℕ} (cfg : SpheresConfig) (s : SpheresCollection n)
    (pos0 : Fin 3 → ℝ) (rad0 : ℝ) : SpheresCollection (n+1) :=
  { pos := Fin.snoc s.pos pos0
    rad := Fin.snoc s.rad (if n = 0 then rad0 else 0)
    zscale := s.zscale
    particles := fun x =>
      s.particles x + drawContrib cfg s.zscale pos0 rad0 x }

end SpheresCollection

/-! ## `cbamf.comp.psf2d`: PSF width heuristic and 2-D execution -/

/-- `guess_psf_width(error, k, alpha, round=False)` before the final
`*2+1`: the raw width `second_guess/(k sin alpha)` in units of
`sin(alpha)/k`. -/
def guess_psf_width_core (error k alpha : ℝ) : ℝ :=
  ((⌈(8 / Real.pi / error) ^ ((1:ℝ)/3) / Real.pi - 0.25⌉ : ℝ) + 0.25)
    * Real.pi / k / Real.sin alpha

/-- `guess_psf_width(error, k, alpha, round=True)`:
`int(np.round(to_return))*2 + 1`. -/
def guess_psf_width (error k alpha : ℝ) : ℤ :=
  npRound (guess_psf_width_core error k alpha) * 2 + 1

/-- The 2-D discrete Fourier transform used by `PSF2D.fft2`
(`numpy.fft.fft2` / pyfftw convention). -/
def fft2 {m n : ℕ} (f : Fin m → Fin n → ℂ) : Fin m → Fin n → ℂ :=
  fun k l => ∑ a, ∑ b, f a b *
    Complex.exp (-(2 * Real.pi * Complex.I *
      ((k.val : ℂ) * (a.val : ℂ) / (m : ℂ) + (l.val : ℂ) * (b.val : ℂ) / (n : ℂ))))

/-- The inverse 2-D transform `PSF2D.ifft2`, normalized by `1/(m n)`. -/
def ifft2 {m n : ℕ} (f : Fin m → Fin n → ℂ) : Fin m → Fin n → ℂ :=
  fun a b => (1 / ((m : ℂ) * (n : ℂ))) * ∑ k, ∑ l, f k l *
    Complex.exp (2 * Real.pi * Complex.I *
      ((k.val : ℂ) * (a.val : ℂ) / (m : ℂ) + (l.val : ℂ) * (b.val : ℂ) / (n : ℂ)))

/-- `PSF2D._conv_2d(field1, field2, k1=False, k2=True)`: transform the
first field, multiply by the already-transformed second, inverse
transform, take the real part. -/
def conv_2d {m n : ℕ} (field1 : Fin m → Fin n → ℝ)
    (field2 : Fin m → Fin n → ℂ) : Fin m → Fin n → ℝ :=
  fun i j =>
    (ifft2 (fun k l => fft2 (fun a b => ((field1 a b : ℝ) : ℂ)) k l * field2 k l) i j).re

/-- `PSF2D.execute(field)`:  per-z-slice 2-D convolution against the
precomputed frequency kernel `kpsf` (depth `self.shape[0] = dz`), summed
along z (`for_ans.sum(axis=0)`), then broadcast back over the first
`self.shape[0]` slices of an output of the field's shape.  The
convolution loop runs over `field.shape[0] = d` and indexes `kpsf[a]`
(IndexError if `d > dz`); the broadcast loop runs over `dz` and writes
`bigger_ans[a]` (IndexError if `dz > d`). -/
def PSF2D_execute {m n : ℕ} {dz : ℕ} (kpsf : Fin dz → Fin m → Fin n → ℂ)
    {d : ℕ} (field : Fin d → Fin m → Fin n → ℝ) :
    Except String (Fin d → Fin m → Fin n → ℝ) :=
  if h : d ≤ dz then
    let ans : Fin m → Fin n → ℝ :=
      fun i j => ∑ a : Fin d, conv_2d (field a) (kpsf (Fin.castLE h a)) i j
    if dz ≤ d then .ok fun _ => ans
    else .error "IndexError"
  else .error "IndexError"

/-! ## `peri.opt.optimize`: pixel budget, LM engine, particle clamping -/

/-- `get_num_px_jtj(s, nparams, decimate, max_mem, min_redundant)`.
`size` is `s.residuals.size`.  Python 2 `size/decimate` is integer floor
division; `int(max_mem/8/nparams)` truncates toward zero, which equals
the floor for the nonnegative budgets in use. -/
def get_num_px_jtj (size nparams decimate : ℕ) (max_mem : ℝ)
    (min_redundant : ℕ) : Except String ℤ :=
  -- px_mem = int(max_mem/8/nparams); px_red = min_redundant*nparams;
  -- px_dec = size/decimate (Python 2 integer division)
  if (min_redundant : ℤ) * (nparams : ℤ) > ⌊max_mem / 8 / (nparams : ℝ)⌋ then
    .error "Insufficient max_mem for desired redundancy."
  else
    .ok (npClipInt ((size : ℤ) / (decimate : ℤ))
      ((min_redundant : ℤ) * (nparams : ℤ)) ⌊max_mem / 8 / (nparams : ℝ)⌋)

/-- The kind of one `LMParticles` parameter: a radius (`...-a`) or a
position coordinate on axis `0=z, 1=y, 2=x`.  `param_particle` produces
only these kinds, and the `_is_rad` / `_is_pos[a]` boolean masks are
disjoint since a name ends in exactly one of `a,z,y,x`. -/
inductive PartParamKind where
  | radK : PartParamKind
  | posK : Fin 3 → PartParamKind
deriving DecidableEq

/-- `LMParticles.update_function`'s clamping pass (`_MINRAD=1e-3`,
`_MAXRAD=2e2`, `_MINDIST=1e-3`): the values actually applied to the
state, after `np.clip` on the radius mask and on each per-axis position
mask. -/
def LMParticles_update_values {m : ℕ} (kind : Fin m → PartParamKind)
    (pad ishape : Fin 3 → ℝ) (v : Fin m → ℝ) : Fin m → ℝ :=
  fun i => match kind i with
  | .radK => npClipR (v i) 1e-3 2e2
  | .posK ax => npClipR (v i) (1e-3 - pad ax) (ishape ax + pad ax - 1e-3)

/-- The state of an `LMEngine` relevant to damping, termination and the
revert checks.  Python names: `param_vals`, `_last_vals`, `error`,
`_last_error`, `damping`, `_num_iter`, `_has_run`, `_max_inner_loop`. -/
structure LMEngine (k : ℕ) where
  param_vals : Fin k → ℝ
  lastVals : Fin k → ℝ
  error : ℝ
  lastError : ℝ
  damping : Fin k → ℝ
  increase_damp_factor : ℝ
  decrease_damp_factor : ℝ
  paramtol : ℝ
  errtol : ℝ
  fractol : ℝ
  costol : Option ℝ
  max_iter : ℕ
  num_iter : ℕ
  hasRun : Bool
  run_length : ℕ
  maxInnerLoop : ℕ

namespace LMEngine

variable {k : ℕ}

/-- `increase_damping`: `self.damping *= self.increase_damp_factor`. -/
def increase_damping (e : LMEngine k) : LMEngine k :=
  { e with damping := fun i => e.damping i * e.increase_damp_factor }

/-- `decrease_damping(undo_decrease)`: multiply back or divide by
`decrease_damp_factor`. -/
def decrease_damping (e : LMEngine k) (undo_decrease : Bool) : LMEngine k :=
  if undo_decrease then
    { e with damping := fun i => e.damping i * e.decrease_damp_factor }
  else
    { e with damping := fun i => e.damping i / e.decrease_damp_factor }

/-- `check_completion()`: the three tolerance disjuncts; with `costol`
set, the code then evaluates `curcos < term_dict['model_cosine']` where
the name `curcos` is bound nowhere, so the call raises `NameError`. -/
def check_completion (e : LMEngine k) : Except String Prop :=
  let delta_vals := fun i => e.lastVals i - e.param_vals i
  let delta_err := e.lastError - e.error
  let frac_err := delta_err / e.error
  let terminate : Prop :=
    (∀ i, |delta_vals i| < e.paramtol) ∨ delta_err < e.errtol ∨ frac_err < e.fractol
  match e.costol with
  | none => .ok terminate
  | some _ => .error "NameError: name curcos is not defined"

/-- `check_terminate()`: `False` before any run; afterwards
`check_completion()` OR the `max_iter` iteration cap. -/
def check_terminate (e : LMEngine k) : Except String Prop :=
  if e.hasRun then
    (check_completion e).map fun t => t ∨ e.max_iter ≤ e.num_iter
  else .ok False

end LMEngine

/-- The model an engine runs against, abstracting the external state
update (`update_function`: apply a parameter vector, return the scalar
error — deterministic) and the damped least-squares solve
(`find_LM_updates` as a function of the current damping vector, the
gradient and Jacobian being fixed within one outer step). -/
structure LMModel (k : ℕ) where
  updateF : (Fin k → ℝ) → ℝ
  findStep : (Fin k → ℝ) → (Fin k → ℝ)

namespace LMEngine

variable {k : ℕ}

/-- The accepted-step tail of `_run1`: `_last_error = error`,
`error = er1`, `update_param_vals(delta, incremental=True)`,
`decrease_damping()`. -/
def acceptStep (e : LMEngine k) (δ : Fin k → ℝ) (er1 : ℝ) : LMEngine k :=
  let e1 := { e with lastError := e.error, error := er1 }
  let e2 := { e1 with lastVals := e1.param_vals
                      param_vals := fun i => e1.param_vals i + δ i }
  e2.decrease_damping false

/-- The damping-escalation loop of `_run1` (`for _try in
xrange(self._max_inner_loop)` with a `for ... else` stuck check). -/
def run1Inner (M : LMModel k) : ℕ → LMEngine k → Except String (LMEngine k)
  | 0, e =>
    let er0 := M.updateF e.param_vals
    if |er0 - e.error| > 1e-7 then .error "Function updates are not exact."
    else .ok e
  | fuel+1, e =>
    let e' := e.increase_damping
    let δ := M.findStep e'.damping
    let er1 := M.updateF fun i => e'.param_vals i + δ i
    if er1 < e'.error then .ok (acceptStep e' δ er1)
    else run1Inner M fuel e'

/-- `_run1()`: one outer step of `do_run_1` (the Jacobian bookkeeping,
which touches neither parameters, error nor damping, is not modelled;
`find_best_step([error, er1]) == 1` is `er1 < error`, NaN-free model). -/
def run1 (M : LMModel k) (e : LMEngine k) : Except String (LMEngine k) :=
  let δ := M.findStep e.damping
  let er1 := M.updateF fun i => e.param_vals i + δ i
  if er1 < e.error then .ok (acceptStep e δ er1)
  else
    let er0 := M.updateF e.param_vals
    if |er0 - e.error| > 1e-7 then .error "Function updates are not exact."
    else run1Inner M e.maxInnerLoop e

/-- The accepted-step update inside `do_internal_run`:
`update_param_vals(delta, incremental=True)`, optionally
`_last_error = er0`, `error = er1`; damping untouched. -/
def internalAccept (e : LMEngine k) (δ : Fin k → ℝ) (er0 er1 : ℝ)
    (update_derr : Bool) : LMEngine k :=
  { e with lastVals := e.param_vals
           param_vals := fun i => e.param_vals i + δ i
           lastError := if update_derr then er0 else e.lastError
           error := er1 }

/-- The `while` loop of `do_internal_run`.  The condition
`(counter < run_length) & good_step & (not check_terminate())` uses
bitwise `&`, so `check_terminate()` is evaluated on every re-entry
(and can raise).  `fuel` bounds the recursion; the counter strictly
increases, so `run_length + 1` fuel always suffices. -/
def internalLoop (M : LMModel k) (update_derr : Bool) :
    ℕ → ℕ → Bool → LMEngine k → Except String (LMEngine k)
  | 0, _, _, e => .ok e
  | fuel+1, counter, good, e =>
    match check_terminate e with
    | .error s => .error s
    | .ok term =>
      if counter < e.run_length ∧ good = true ∧ ¬term then
        let er0 := e.error
        let δ := M.findStep e.damping
        let er1 := M.updateF fun i => e.param_vals i + δ i
        if er1 < er0 then
          internalLoop M update_derr fuel (counter+1) true
            (internalAccept e δ er0 er1 update_derr)
        else
          let er0_0 := M.updateF e.param_vals
          if |er0 - er0_0| > 1e-6 then .error "Function updates are not exact."
          else internalLoop M update_derr fuel (counter+1) false e
      else .ok e

/-- `do_internal_run(initial_count, subblock=None, update_derr)`. -/
def do_internal_run (M : LMModel k) (e : LMEngine k) (initial_count : ℕ)
    (update_derr : Bool) : Except String (LMEngine k) :=
  internalLoop M update_derr (e.run_length + 1) initial_count true e

/-- The damping-escalation loop of the both-steps-bad branch of
`_run2`; returns the engine and the `good_step` flag.  The `for-else`
stuck path reassigns `error` to the re-evaluated value with no
consistency check. -/
def run2Stuck (M : LMModel k) : ℕ → LMEngine k → LMEngine k × Bool
  | 0, e => ({ e with error := M.updateF e.param_vals }, false)
  | fuel+1, e =>
    let e' := e.increase_damping
    let δ := M.findStep e'.damping
    let er_new := M.updateF fun i => e'.param_vals i + δ i
    if er_new < e'.error then
      ({ e' with lastVals := e'.param_vals
                 param_vals := (fun i => e'.param_vals i + δ i)
                 error := er_new }, true)
    else run2Stuck M fuel e'

/-- `_run2()`: one outer step of `do_run_2`.  `find_best_step` on
`(error, er1, er2)` picks the first index of the minimum.  Note the
both-bad branch evaluates `update_function(param_vals)` and discards
the result with no 1e-6 check; only the accepted `best_step == 1`
branch re-checks (and with a deterministic model that check is always
met). -/
def run2 (M : LMModel k) (e : LMEngine k) : Except String (LMEngine k) :=
  let lastError0 := e.error
  let lastVals0 := e.param_vals
  let δ1 := M.findStep e.damping
  let eDec := e.decrease_damping false
  let δ2 := M.findStep eDec.damping
  let e0 := eDec.decrease_damping true
  let er1 := M.updateF fun i => e0.param_vals i + δ1 i
  let er2 := M.updateF fun i => e0.param_vals i + δ2 i
  if e0.error ≤ er1 ∧ e0.error ≤ er2 then
    let _ := M.updateF e0.param_vals
    let se := run2Stuck M e0.maxInnerLoop e0
    if se.2 then
      do_internal_run M { se.1 with lastError := lastError0, lastVals := lastVals0 } 1 true
    else .ok se.1
  else if er1 < e0.error ∧ er1 ≤ er2 then
    let er1_1 := M.updateF fun i => e0.param_vals i + δ1 i
    if |er1_1 - er1| > 1e-6 then .error "Function updates are not exact."
    else
      let e1 := { e0 with lastVals := e0.param_vals
                          param_vals := (fun i => e0.param_vals i + δ1 i)
                          error := er1 }
      do_internal_run M { e1 with lastError := lastError0, lastVals := lastVals0 } 1 true
  else
    let e2 := { e0 with error := er2
                        lastVals := e0.param_vals
                        param_vals := (fun i => e0.param_vals i + δ2 i) }
    let e2' := e2.decrease_damping false
    do_internal_run M { e2' with lastError := lastError0, lastVals := lastVals0 } 1 true

end LMEngine

/-! ## Concrete instances used to exercise the theorems below -/

/-- A trivial drawing configuration. -/
def cfgW : SpheresConfig :=
  { shape := fun _ => 0, support_pad := 0, innerL := fun _ => 0,
    f := fun _ _ => 0, exact_volume := false, volume_error := 0,
    max_radius_change := 0 }

/-- A one-particle collection whose particle has radius 0 and whose
field is identically zero. -/
def sW : SpheresCollection 1 :=
  { pos := fun _ _ => 0, rad := fun _ => 0, zscale := 1, particles := fun _ => 0 }

/-- A one-parameter engine at the constructor defaults that matter here
(damping 1, increase factor 3, decrease factor 8, inner-loop cap 15),
before any run. -/
def engW : LMEngine 1 :=
  { param_vals := fun _ => 0, lastVals := fun _ => 0, error := 2, lastError := 2,
    damping := fun _ => 1, increase_damp_factor := 3, decrease_damp_factor := 8,
    paramtol := 1e-6, errtol := 1e-5, fractol := 1e-6, costol := none,
    max_iter := 5, num_iter := 0, hasRun := false, run_length := 5,
    maxInnerLoop := 15 }

/-- A model that always returns error 0: its first trial step is always
accepted. -/
def modelAcc : LMModel 1 :=
  { updateF := fun _ => 0, findStep := fun _ => fun _ => 1 }

/-- A model whose step is the current damping value and whose error is 0
only at parameter value 3: against `engW` (error 2) the first trial
(step 1) is rejected and the escalated retry (step 3) is accepted. -/
def modelRetry : LMModel 1 :=
  { updateF := fun v => if v 0 = 3 then 0 else 2, findStep := fun d => fun _ => d 0 }

/-- A model for which every proposed step is bad (error 7 off the
current point) while the recorded engine error 5 disagrees with the
model's own value 10 at the current point by 5 > 1e-6. -/
def modelBad : LMModel 1 :=
  { updateF := fun v => if v 0 = 0 then 10 else 7, findStep := fun _ => fun _ => 1 }

/-- `engW` with recorded error 5 (so `modelBad`'s re-evaluated error 10
mismatches it grossly). -/
def engBad : LMEngine 1 := { engW with error := 5 }

/-! ## Helper lemmas -/

theorem npRound_le (x : ℝ) : (npRound x : ℝ) ≤ x + 1/2 := by
  unfold npRound
  split
  · rename_i h
    have hx : x = (⌊x⌋ : ℝ) + 1/2 := by
      have := Int.fract_add_floor x
      rw [h] at this
      linarith
    split
    · linarith
    · push_cast; linarith
  · have : (round x : ℝ) ≤ x + 1/2 := by
      rw [round_eq]
      exact_mod_cast Int.floor_le (x + 1/2)
    linarith

theorem le_npRound (x : ℝ) : x - 1/2 ≤ (npRound x : ℝ) := by
  unfold npRound
  split
  · rename_i h
    have hx : x = (⌊x⌋ : ℝ) + 1/2 := by
      have := Int.fract_add_floor x
      rw [h] at this
      linarith
    split
    · linarith
    · push_cast; linarith
  · have : x + 1/2 - 1 < (round x : ℝ) := by
      rw [round_eq]
      exact_mod_cast Int.sub_one_lt_floor (x + 1/2)
    linarith

theorem npRound_mono {x y : ℝ} (h : x ≤ y) : npRound x ≤ npRound y := by
  by_contra hcon
  push_neg at hcon
  have h1 : (npRound y : ℝ) + 1 ≤ (npRound x : ℝ) := by exact_mod_cast hcon
  have h2 := npRound_le x
  have h3 := le_npRound y
  have hyx : y ≤ x := by linarith
  have hxy : x = y := le_antisymm h hyx
  rw [hxy] at hcon
  exact absurd rfl (ne_of_gt hcon)

theorem npRound_nonneg {x : ℝ} (h : 0 ≤ x) : 0 ≤ npRound x := by
  by_contra hcon
  push_neg at hcon
  have h1 : npRound x ≤ -1 := by omega
  have h1' : (npRound x : ℝ) ≤ -1 := by exact_mod_cast h1
  have h2 := le_npRound x
  linarith

theorem erf_zero : erf 0 = 0 := by
  simp [erf]

namespace SpheresCollection

variable {n : ℕ}

theorem setValue_particles (s : SpheresCollection n) (p : SphParam n) (v : ℝ) :
    (setValue s p v).particles = s.particles := by
  cases p <;> rfl

theorem setValue_zscale (s : SpheresCollection n) (p : SphParam n) (v : ℝ)
    (h : p ≠ SphParam.zscaleP) : (setValue s p v).zscale = s.zscale := by
  cases p with
  | coordP i ax => rfl
  | radP i => rfl
  | zscaleP => exact absurd rfl h

theorem setValue_pos (s : SpheresCollection n) (p : SphParam n) (v : ℝ)
    (i : Fin n) (h : p.index ≠ some i) : (setValue s p v).pos i = s.pos i := by
  cases p with
  | coordP j ax =>
    have hji : j ≠ i := fun hc => h (by simp [SphParam.index, hc])
    simp [setValue, Function.update_noteq (Ne.symm hji)]
  | radP j => rfl
  | zscaleP => rfl

theorem setValue_rad (s : SpheresCollection n) (p : SphParam n) (v : ℝ)
    (i : Fin n) (h : p.index ≠ some i) : (setValue s p v).rad i = s.rad i := by
  cases p with
  | coordP j ax => rfl
  | radP j =>
    have hji : j ≠ i := fun hc => h (by simp [SphParam.index, hc])
    simp [setValue, Function.update_noteq (Ne.symm hji)]
  | zscaleP => rfl

theorem setValuesL_particles (L : List (SphParam n × ℝ)) (s : SpheresCollection n) :
    (setValuesL s L).particles = s.particles := by
  induction L generalizing s with
  | nil => rfl
  | cons pv L ih =>
    rw [setValuesL, List.foldl_cons]
    rw [show List.foldl (fun st pv => setValue st pv.1 pv.2) (setValue s pv.1 pv.2) L
      = setValuesL (setValue s pv.1 pv.2) L from rfl]
    rw [ih, setValue_particles]

theorem setValuesL_zscale (L : List (SphParam n × ℝ)) (s : SpheresCollection n)
    (h : ∀ pv ∈ L, pv.1 ≠ SphParam.zscaleP) :
    (setValuesL s L).zscale = s.zscale := by
  induction L generalizing s with
  | nil => rfl
  | cons pv L ih =>
    rw [setValuesL, List.foldl_cons]
    rw [show List.foldl (fun st pv => setValue st pv.1 pv.2) (setValue s pv.1 pv.2) L
      = setValuesL (setValue s pv.1 pv.2) L from rfl]
    rw [ih _ fun q hq => h q (List.mem_cons_of_mem _ hq)]
    exact setValue_zscale s pv.1 pv.2 (h pv (List.mem_cons_self _ _))

theorem setValuesL_pos (L : List (SphParam n × ℝ)) (s : SpheresCollection n)
    (i : Fin n) (h : ∀ pv ∈ L, pv.1.index ≠ some i) :
    (setValuesL s L).pos i = s.pos i := by
  induction L generalizing s with
  | nil => rfl
  | cons pv L ih =>
    rw [setValuesL, List.foldl_cons]
    rw [show List.foldl (fun st pv => setValue st pv.1 pv.2) (setValue s pv.1 pv.2) L
      = setValuesL (setValue s pv.1 pv.2) L from rfl]
    rw [ih _ fun q hq => h q (List.mem_cons_of_mem _ hq)]
    exact setValue_pos s pv.1 pv.2 i (h pv (List.mem_cons_self _ _))

theorem setValuesL_rad (L : List (SphParam n × ℝ)) (s : SpheresCollection n)
    (i : Fin n) (h : ∀ pv ∈ L, pv.1.index ≠ some i) :
    (setValuesL s L).rad i = s.rad i := by
  induction L generalizing s with
  | nil => rfl
  | cons pv L ih =>
    rw [setValuesL, List.foldl_cons]
    rw [show List.foldl (fun st pv => setValue st pv.1 pv.2) (setValue s pv.1 pv.2) L
      = setValuesL (setValue s pv.1 pv.2) L from rfl]
    rw [ih _ fun q hq => h q (List.mem_cons_of_mem _ hq)]
    exact setValue_rad s pv.1 pv.2 i (h pv (List.mem_cons_self _ _))

theorem mem_affected {ps : List (SphParam n)} {i : Fin n} :
    i ∈ affected ps ↔ ∃ p ∈ ps, p.index = some i := by
  induction ps with
  | nil => simp [affected]
  | cons p ps ih =>
    rw [affected, List.foldr_cons]
    rw [show List.foldr
      (fun p acc => match p.index with | some i => insert i acc | none => acc) ∅ ps
      = affected ps from rfl]
    cases p with
    | coordP j ax => simp [SphParam.index, ih, eq_comm]
    | radP j => simp [SphParam.index, ih, eq_comm]
    | zscaleP => simp [SphParam.index, ih]

theorem dozscale_false_elim {ps : List (SphParam n)} (h : dozscale ps = false) :
    ∀ p ∈ ps, p ≠ SphParam.zscaleP := by
  intro p hp
  have := List.any_eq_false.mp h p hp
  simpa using this

end SpheresCollection

/-- C1: for a `PlatonicSpheresCollection` whose `particles` field is the
additive superposition of its particles' drawn contributions, any
`update(params, values)` naming only per-particle parameters (no
`zscale`) erases each affected particle at its old position/radius and
redraws it at the new values, leaving `particles` equal to the field a
fresh `initialize()` would produce at the new parameter values (exactly,
in the real-arithmetic model); and removing one particle and re-adding
it at the same position and radius reproduces the pre-removal
`particles` field. -/
theorem platonic_update_superposition {n : ℕ} (cfg : SpheresConfig)
    (s : SpheresCollection (n+1)) (ps : List (SphParam (n+1))) (vs : List ℝ)
    (ind : Fin (n+1))
    (hz : SpheresCollection.dozscale ps = false)
    (hinv : s.particles = SpheresCollection.totalField cfg s) :
    (SpheresCollection.update cfg s ps vs).particles
      = (SpheresCollection.initField cfg
          (SpheresCollection.update cfg s ps vs)).particles
    ∧ (SpheresCollection.add_particle cfg
        (SpheresCollection.remove_particle cfg s ind)
        (s.pos ind) (s.rad ind)).particles = s.particles := by
  constructor
  · have hupd : SpheresCollection.update cfg s ps vs
        = (let aff := SpheresCollection.affected ps
           let erased : SpheresCollection (n+1) :=
             { s with particles := fun x =>
                 s.particles x + ∑ i in aff, -1 *
                   drawContrib cfg s.zscale (s.pos i) (s.rad i) x }
           let s1 := SpheresCollection.set_values erased ps vs
           { s1 with particles := fun x =>
               s1.particles x + ∑ i in aff,
                 drawContrib cfg s1.zscale (s1.pos i) (s1.rad i) x }) := by
      rw [SpheresCollection.update, if_neg]
      simp [hz]
    rw [hupd]
    set aff := SpheresCollection.affected ps with haff
    set erased : SpheresCollection (n+1) :=
      { s with particles := fun x =>
          s.particles x + ∑ i in aff, -1 *
            drawContrib cfg s.zscale (s.pos i) (s.rad i) x } with herased
    set s1 := SpheresCollection.set_values erased ps vs with hs1
    have hnozPV : ∀ pv ∈ ps.zip vs, pv.1 ≠ SphParam.zscaleP := fun pv hpv =>
      SpheresCollection.dozscale_false_elim hz pv.1 (List.of_mem_zip hpv).1
    have hz1 : s1.zscale = s.zscale := by
      rw [hs1, SpheresCollection.set_values,
        SpheresCollection.setValuesL_zscale _ _ hnozPV]
    have hnotin : ∀ i : Fin (n+1), i ∉ aff →
        ∀ pv ∈ ps.zip vs, pv.1.index ≠ some i := by
      intro i hi pv hpv hc
      exact hi (SpheresCollection.mem_affected.mpr
        ⟨pv.1, (List.of_mem_zip hpv).1, hc⟩)
    have hpos : ∀ i : Fin (n+1), i ∉ aff → s1.pos i = s.pos i := by
      intro i hi
      rw [hs1, SpheresCollection.set_values,
        SpheresCollection.setValuesL_pos _ _ _ (hnotin i hi)]
    have hrad : ∀ i : Fin (n+1), i ∉ aff → s1.rad i = s.rad i := by
      intro i hi
      rw [hs1, SpheresCollection.set_values,
        SpheresCollection.setValuesL_rad _ _ _ (hnotin i hi)]
    have hpart : s1.particles = erased.particles := by
      rw [hs1, SpheresCollection.set_values, SpheresCollection.setValuesL_particles]
    funext x
    show s1.particles x + ∑ i in aff,
        drawContrib cfg s1.zscale (s1.pos i) (s1.rad i) x
      = SpheresCollection.totalField cfg _ x
    rw [SpheresCollection.totalField]
    rw [hpart]
    show (s.particles x + ∑ i in aff, -1 *
        drawContrib cfg s.zscale (s.pos i) (s.rad i) x)
      + ∑ i in aff, drawContrib cfg s1.zscale (s1.pos i) (s1.rad i) x
      = ∑ i, drawContrib cfg s1.zscale (s1.pos i) (s1.rad i) x
    have hsO := Finset.sum_sdiff (f := fun i =>
      drawContrib cfg s.zscale (s.pos i) (s.rad i) x) (Finset.subset_univ aff)
    have hsN := Finset.sum_sdiff (f := fun i =>
      drawContrib cfg s1.zscale (s1.pos i) (s1.rad i) x) (Finset.subset_univ aff)
    have hagree : ∑ i in Finset.univ \ aff,
        drawContrib cfg s.zscale (s.pos i) (s.rad i) x
      = ∑ i in Finset.univ \ aff,
        drawContrib cfg s1.zscale (s1.pos i) (s1.rad i) x := by
      refine Finset.sum_congr rfl fun i hi => ?_
      have hi' : i ∉ aff := (Finset.mem_sdiff.mp hi).2
      rw [hz1, hpos i hi', hrad i hi']
    have hinvx : s.particles x = ∑ i,
        drawContrib cfg s.zscale (s.pos i) (s.rad i) x := by
      rw [hinv]; rfl
    rw [hinvx]
    simp only [neg_one_mul, Finset.sum_neg_distrib]
    linarith [hsO, hsN, hagree]
  · funext x
    show ((s.particles x + -1 * drawContrib cfg s.zscale (s.pos ind) (s.rad ind) x)
        + drawContrib cfg s.zscale (s.pos ind) (s.rad ind) x) = s.particles x
    ring

/-- Witness for C1 at a concrete one-particle collection. -/
theorem platonic_update_superposition_witness :
    (SpheresCollection.update cfgW sW [SphParam.radP 0] [0]).particles
      = (SpheresCollection.initField cfgW
          (SpheresCollection.update cfgW sW [SphParam.radP 0] [0])).particles
    ∧ (SpheresCollection.add_particle cfgW
        (SpheresCollection.remove_particle cfgW sW 0)
        (sW.pos 0) (sW.rad 0)).particles = sW.particles :=
  platonic_update_superposition cfgW sW [SphParam.radP 0] [0] 0 (by rfl)
    (by
      funext x
      simp [SpheresCollection.totalField, drawContrib, sW])

theorem sphere_bool_at_zero (a alpha : ℝ) : sphere_bool 0 a alpha = 0 := by
  simp [sphere_bool, ind]

theorem sphere_lerp_at_zero (a : ℝ) {alpha : ℝ} (h : 0 < alpha) :
    sphere_lerp 0 a alpha = 1/2 := by
  unfold sphere_lerp npClipR
  rw [zero_add, show alpha / (2*alpha) = 1/2 from by
    rw [div_eq_iff (by positivity)]; ring]
  norm_num

theorem sphere_logistic_at_zero (a alpha : ℝ) : sphere_logistic 0 a alpha = 1/2 := by
  simp [sphere_logistic]
  norm_num

theorem sphere_triangle_cdf_at_zero (a alpha : ℝ) :
    sphere_triangle_cdf 0 a alpha = 1 := by
  simp [sphere_triangle_cdf, ind, npClipR]

theorem sphere_trim_at_zero (a alpha cut : ℝ) (hcut : 0 ≤ cut) :
    sphere_analytical_gaussian_trim 0 a alpha cut
      = 1/2 - Real.sqrt (0.5/Real.pi) * (alpha/(a + 1e-10)) := by
  unfold sphere_analytical_gaussian_trim
  rw [if_pos (by simpa using hcut)]
  simp [erf_zero]
  norm_num

theorem sphere_gaussian_at_zero (a alpha : ℝ) :
    sphere_analytical_gaussian 0 a alpha
      = 0.5 * erf ((2*a)/(alpha * Real.sqrt 2))
        - Real.sqrt (0.5/Real.pi) * (alpha/(a + 1e-10))
          * (1 - Real.exp (-0.5*(2*a)^2/alpha^2)) := by
  unfold sphere_analytical_gaussian
  simp [erf_zero]

theorem sphere_cubic_at_zero {a : ℝ} (ha : 0 ≤ a) :
    |sphere_constrained_cubic 0 a 0.84990 - 1/2| ≤ 0.04 := by
  have hs0 : (0:ℝ) < Real.sqrt 3 := Real.sqrt_pos.mpr (by norm_num)
  have hs3 : Real.sqrt 3 * Real.sqrt 3 = 3 := Real.mul_self_sqrt (by norm_num)
  have hlb : (1.732:ℝ) ≤ Real.sqrt 3 := by
    rw [show (1.732:ℝ) = Real.sqrt (1.732^2) from (Real.sqrt_sq (by norm_num)).symm]
    exact Real.sqrt_le_sqrt (by norm_num)
  have hub : Real.sqrt 3 ≤ 1.7321 := by
    rw [show (1.7321:ℝ) = Real.sqrt (1.7321^2) from (Real.sqrt_sq (by norm_num)).symm]
    exact Real.sqrt_le_sqrt (by norm_num)
  set s := Real.sqrt 3 with hsdef
  have hD : (0:ℝ) < 0.15 + a*a := by positivity
  have hs0' : s ≠ 0 := ne_of_gt hs0
  have hD' : (0.15 + a*a) ≠ 0 := ne_of_gt hD
  have hval0 : sphere_constrained_cubic 0 a 0.84990 =
      0.84990 * (npClipR 0 (-(0.5*s)) (0.5*s) - 0.5*s)
        * (npClipR 0 (-(0.5*s)) (0.5*s) + 0.5*s) * npClipR 0 (-(0.5*s)) (0.5*s)
      + a * 0.5 / s * (1 - 0.6*s*0.84990) / (0.15 + a*a)
        * (npClipR 0 (-(0.5*s)) (0.5*s) - 0.5*s)
        * (npClipR 0 (-(0.5*s)) (0.5*s) + 0.5*s)
      - (npClipR 0 (-(0.5*s)) (0.5*s) - 0.5*s)/s := rfl
  have hclip : npClipR 0 (-(0.5*s)) (0.5*s) = 0 := by
    unfold npClipR
    rw [max_eq_left (by nlinarith), min_eq_left (by nlinarith)]
  have hval : sphere_constrained_cubic 0 a 0.84990
      = 1/2 - (0.375*a*(1 - 0.50994*s))/(s*(0.15 + a*a)) := by
    rw [hval0, hclip]
    field_simp
    ring_nf
    linear_combination ((76491/4000000:ℝ)*a*s^3 - (3/80)*a*s^2
      + (25497/200000)*a^3*s^3 - (1/4)*a^3*s^2) * hs3
  set t := (0.375*a*(1 - 0.50994*s))/(s*(0.15 + a*a)) with htdef
  have hc_ub : 1 - 0.50994*s ≤ 0.117 := by nlinarith
  have hc_lb : (0:ℝ) ≤ 1 - 0.50994*s := by nlinarith
  have ht0 : 0 ≤ t := by
    apply div_nonneg
    · exact mul_nonneg (mul_nonneg (by norm_num) ha) hc_lb
    · exact le_of_lt (mul_pos hs0 hD)
  have ht1 : t ≤ 0.04 := by
    rw [htdef, div_le_iff (mul_pos hs0 hD)]
    nlinarith [mul_le_mul_of_nonneg_left hc_ub
        (mul_nonneg (by norm_num : (0:ℝ) ≤ 0.375) ha),
      mul_le_mul_of_nonneg_right hlb (le_of_lt hD),
      sq_nonneg (a - 0.3167)]
  rw [hval, show 1/2 - t - 1/2 = -t from by ring, abs_neg, abs_of_nonneg ht0]
  exact ht1

theorem trim_neg_small_radius :
    sphere_analytical_gaussian_trim 0 1e-3 0.2765 1.6 < 0 := by
  rw [sphere_trim_at_zero _ _ _ (by norm_num)]
  have hpi0 := Real.pi_pos
  have hpi := Real.pi_lt_315
  have h1 : (0.35:ℝ) ≤ Real.sqrt (0.5/Real.pi) := by
    rw [show (0.35:ℝ) = Real.sqrt (0.35^2) from (Real.sqrt_sq (by norm_num)).symm]
    apply Real.sqrt_le_sqrt
    rw [le_div_iff hpi0]
    nlinarith
  have h2 : (276:ℝ) ≤ 0.2765/(1e-3 + 1e-10) := by norm_num
  nlinarith [mul_le_mul h1 h2 (by norm_num) (Real.sqrt_nonneg (0.5/Real.pi))]

/-- C3 counterexample: at `dr = 0` the `bool` kernel is 0, not 1 (its
threshold `dr < 0` excludes the surface); moreover the `triangle` kernel
is exactly 1 at `dr = 0` (both of its strict-inequality pieces exclude
the surface), and the trimmed analytic-Gaussian kernel at its default
`alpha` is negative — nowhere near 0.5 — for a radius of `1e-3`, so "for
any radius a" fails too. -/
theorem sphere_kernels_at_surface_counterexample :
    sphere_bool 0 5 0 ≠ 1
    ∧ sphere_triangle_cdf 0 5 0.6618 = 1
    ∧ sphere_analytical_gaussian_trim 0 1e-3 0.2765 1.6 < 0 := by
  refine ⟨?_, sphere_triangle_cdf_at_zero 5 0.6618, trim_neg_small_radius⟩
  rw [sphere_bool_at_zero]
  norm_num

/-- C3 amended: at `dr = 0`, `lerp` (any `alpha > 0`) and `logistic` are
exactly 1/2; `bool` is exactly 0 (threshold `dr < 0`); `triangle` is
exactly 1 (strict inequalities exclude the surface); the trimmed
analytic Gaussian equals `1/2 - sqrt(1/(2 pi)) * alpha/(a+1e-10)` and the
full analytic Gaussian equals
`erf(2a/(alpha sqrt 2))/2 - sqrt(1/(2 pi)) (alpha/(a+1e-10)) (1 - exp(-2a^2/alpha^2))`
— both within a small tolerance of 0.5 only when the radius is large
compared to `alpha`, not for every radius; `constrained-cubic` at its
default `alpha` is within 0.04 of 0.5 for every radius `a ≥ 0`. -/
theorem sphere_kernels_at_surface (a alpha : ℝ) (ha : 0 < alpha) :
    sphere_lerp 0 a alpha = 1/2
    ∧ sphere_logistic 0 a alpha = 1/2
    ∧ sphere_bool 0 a alpha = 0
    ∧ sphere_triangle_cdf 0 a alpha = 1
    ∧ sphere_analytical_gaussian_trim 0 a alpha 1.6
        = 1/2 - Real.sqrt (0.5/Real.pi) * (alpha/(a + 1e-10))
    ∧ sphere_analytical_gaussian 0 a alpha
        = 0.5 * erf ((2*a)/(alpha * Real.sqrt 2))
          - Real.sqrt (0.5/Real.pi) * (alpha/(a + 1e-10))
            * (1 - Real.exp (-0.5*(2*a)^2/alpha^2))
    ∧ (0 ≤ a → |sphere_constrained_cubic 0 a 0.84990 - 1/2| ≤ 0.04) :=
  ⟨sphere_lerp_at_zero a ha, sphere_logistic_at_zero a alpha,
   sphere_bool_at_zero a alpha, sphere_triangle_cdf_at_zero a alpha,
   sphere_trim_at_zero a alpha 1.6 (by norm_num),
   sphere_gaussian_at_zero a alpha, fun h => sphere_cubic_at_zero h⟩

/-- Witness for the amended C3 at `a = 5`, `alpha = 1`. -/
theorem sphere_kernels_at_surface_witness :
    sphere_lerp 0 5 1 = 1/2
    ∧ |sphere_constrained_cubic 0 5 0.84990 - 1/2| ≤ 0.04 := by
  have h := sphere_kernels_at_surface 5 1 (by norm_num)
  exact ⟨h.1, h.2.2.2.2.2.2 (by norm_num)⟩

/-- C7: `guess_psf_width` with rounding requested returns
`2*round(second_guess/(k*sin(alpha))) + 1` where
`first_guess = (8/(pi*error))^(1/3)`, `n = ceil(first_guess/pi - 0.25)`,
`second_guess = (n + 0.25)*pi`; for `error` in (0,1), `k > 0` and
`alpha` in (0, pi/2) the returned value is an odd positive integer, and
decreasing `error` never decreases the returned width. -/
theorem guess_psf_width_spec (error k alpha : ℝ) (h0 : 0 < error)
    (h1 : error < 1) (hk : 0 < k) (ha0 : 0 < alpha)
    (ha1 : alpha < Real.pi/2) :
    guess_psf_width error k alpha
      = 2 * npRound (((⌈(8 / (Real.pi * error)) ^ ((1:ℝ)/3) / Real.pi - 0.25⌉ : ℝ)
          + 0.25) * Real.pi / (k * Real.sin alpha)) + 1
    ∧ Odd (guess_psf_width error k alpha)
    ∧ 0 < guess_psf_width error k alpha
    ∧ ∀ error2, 0 < error2 → error2 ≤ error →
        guess_psf_width error k alpha ≤ guess_psf_width error2 k alpha := by
  have hpi := Real.pi_pos
  have hsin : 0 < Real.sin alpha :=
    Real.sin_pos_of_pos_of_lt_pi ha0 (by linarith)
  have hbase : 0 < 8 / Real.pi / error := div_pos (by positivity) h0
  have hfg : 0 < (8 / Real.pi / error) ^ ((1:ℝ)/3) :=
    Real.rpow_pos_of_pos hbase _
  have hcorepos : 0 < guess_psf_width_core error k alpha := by
    unfold guess_psf_width_core
    have hq : 0 < (8 / Real.pi / error) ^ ((1:ℝ)/3) / Real.pi := div_pos hfg hpi
    have hnR : ((-1:ℤ) : ℝ) <
        (⌈(8 / Real.pi / error) ^ ((1:ℝ)/3) / Real.pi - 0.25⌉ : ℝ) := by
      have := Int.le_ceil ((8 / Real.pi / error) ^ ((1:ℝ)/3) / Real.pi - 0.25)
      push_cast
      linarith
    have hn : (-1:ℤ) < ⌈(8 / Real.pi / error) ^ ((1:ℝ)/3) / Real.pi - 0.25⌉ := by
      exact_mod_cast hnR
    have hn' : (0:ℝ) ≤ (⌈(8 / Real.pi / error) ^ ((1:ℝ)/3) / Real.pi - 0.25⌉ : ℝ) := by
      have : (0:ℤ) ≤ ⌈(8 / Real.pi / error) ^ ((1:ℝ)/3) / Real.pi - 0.25⌉ := by omega
      exact_mod_cast this
    apply div_pos
    apply div_pos
    · nlinarith
    · exact hk
    · exact hsin
  refine ⟨?_, ⟨npRound (guess_psf_width_core error k alpha), by
      rw [guess_psf_width]; ring⟩, ?_, ?_⟩
  · rw [guess_psf_width, guess_psf_width_core]
    rw [show 8 / (Real.pi * error) = 8 / Real.pi / error from by rw [div_div]]
    rw [div_div (((⌈(8 / Real.pi / error) ^ ((1:ℝ)/3) / Real.pi - 0.25⌉ : ℝ)
          + 0.25) * Real.pi) k (Real.sin alpha)]
    ring
  · have := npRound_nonneg (le_of_lt hcorepos)
    rw [guess_psf_width]
    linarith
  · intro e2 h02 hle
    have key : guess_psf_width_core error k alpha
        ≤ guess_psf_width_core e2 k alpha := by
      unfold guess_psf_width_core
      have hd1 : 8 / Real.pi / error ≤ 8 / Real.pi / e2 := by
        gcongr
      have hfgm : (8 / Real.pi / error) ^ ((1:ℝ)/3)
          ≤ (8 / Real.pi / e2) ^ ((1:ℝ)/3) :=
        Real.rpow_le_rpow (le_of_lt hbase) hd1 (by norm_num)
      have hceil : (⌈(8 / Real.pi / error) ^ ((1:ℝ)/3) / Real.pi - 0.25⌉ : ℤ)
          ≤ ⌈(8 / Real.pi / e2) ^ ((1:ℝ)/3) / Real.pi - 0.25⌉ := by
        apply Int.ceil_le_ceil
        have : (8 / Real.pi / error) ^ ((1:ℝ)/3) / Real.pi
            ≤ (8 / Real.pi / e2) ^ ((1:ℝ)/3) / Real.pi := by gcongr
        linarith
      have hceilR : ((⌈(8 / Real.pi / error) ^ ((1:ℝ)/3) / Real.pi - 0.25⌉ : ℤ) : ℝ)
          ≤ ((⌈(8 / Real.pi / e2) ^ ((1:ℝ)/3) / Real.pi - 0.25⌉ : ℤ) : ℝ) := by
        exact_mod_cast hceil
      gcongr
    have := npRound_mono key
    rw [guess_psf_width, guess_psf_width]
    linarith

/-- Witness for C7 at `error = 1/2`, `k = 1`, `alpha = 1`. -/
theorem guess_psf_width_spec_witness :
    Odd (guess_psf_width (1/2) 1 1) ∧ 0 < guess_psf_width (1/2) 1 1 := by
  have h := guess_psf_width_spec (1/2) 1 1 (by norm_num) (by norm_num)
    (by norm_num) (by norm_num)
    (by have := Real.pi_gt_three; linarith)
  exact ⟨h.2.1, h.2.2.1⟩

/-- C8: for a 3-D field whose depth matches the PSF's configured depth
(the only case in which both loops of `execute` index in range),
`PSF2D.execute` convolves each z-slice with the corresponding slice of
the frequency-domain kernel (multiply transforms, inverse-transform,
real part — this is `conv_2d`), sums the per-slice convolutions along z,
and returns an array of the field's shape whose every z-slice equals
that single 2-D image. -/
theorem psf2d_execute_spec {m n dz : ℕ} (kpsf : Fin dz → Fin m → Fin n → ℂ)
    (field : Fin dz → Fin m → Fin n → ℝ) :
    PSF2D_execute kpsf field
      = .ok (fun _ i j => ∑ a, conv_2d (field a) (kpsf a) i j) := by
  rw [PSF2D_execute, dif_pos (le_refl dz), if_pos (le_refl dz)]
  rfl

/-- C6: `get_num_px_jtj` raises the fatal configuration error exactly
when `min_redundant*nparams` exceeds `max_mem/8/nparams`, and otherwise
returns `clip(size/decimate, min_redundant*nparams, max_mem/8/nparams)`,
i.e. the min/max sandwich of the decimated pixel count between the
redundancy floor and the memory ceiling. -/
theorem get_num_px_jtj_spec (size nparams decimate : ℕ) (max_mem : ℝ)
    (min_red : ℕ) (hn : 0 < nparams) (hm : 0 ≤ max_mem) :
    ((∃ msg, get_num_px_jtj size nparams decimate max_mem min_red = .error msg)
        ↔ max_mem / 8 / (nparams:ℝ) < (min_red:ℝ) * (nparams:ℝ))
    ∧ ((min_red:ℝ) * (nparams:ℝ) ≤ max_mem / 8 / (nparams:ℝ) →
        get_num_px_jtj size nparams decimate max_mem min_red
          = .ok (min (max ((size:ℤ)/(decimate:ℤ)) ((min_red:ℤ)*(nparams:ℤ)))
              ⌊max_mem / 8 / (nparams:ℝ)⌋)) := by
  have hiff : ((min_red:ℤ)*(nparams:ℤ) > ⌊max_mem/8/(nparams:ℝ)⌋)
      ↔ max_mem/8/(nparams:ℝ) < (min_red:ℝ)*(nparams:ℝ) := by
    rw [gt_iff_lt, Int.floor_lt]
    push_cast
    rfl
  refine ⟨?_, ?_⟩
  · by_cases hc : max_mem/8/(nparams:ℝ) < (min_red:ℝ)*(nparams:ℝ)
    · rw [get_num_px_jtj, if_pos (hiff.mpr hc)]
      simp [hc]
    · rw [get_num_px_jtj, if_neg (fun hcc => hc (hiff.mp hcc))]
      simp [hc]
  · intro hge
    have hc : ¬ max_mem/8/(nparams:ℝ) < (min_red:ℝ)*(nparams:ℝ) := not_lt.mpr hge
    rw [get_num_px_jtj, if_neg (fun hcc => hc (hiff.mp hcc))]
    rfl

/-- Witness for C6 at `size = 1000`, `nparams = 2`, defaults
`decimate = 1`, `max_mem = 1e9`, `min_redundant = 20`. -/
theorem get_num_px_jtj_spec_witness :
    ((∃ msg, get_num_px_jtj 1000 2 1 1e9 20 = .error msg)
        ↔ (1e9:ℝ) / 8 / ((2:ℕ):ℝ) < ((20:ℕ):ℝ) * ((2:ℕ):ℝ))
    ∧ (((20:ℕ):ℝ) * ((2:ℕ):ℝ) ≤ (1e9:ℝ) / 8 / ((2:ℕ):ℝ) →
        get_num_px_jtj 1000 2 1 1e9 20
          = .ok (min (max (((1000:ℕ):ℤ)/((1:ℕ):ℤ)) (((20:ℕ):ℤ)*((2:ℕ):ℤ)))
              ⌊(1e9:ℝ) / 8 / ((2:ℕ):ℝ)⌋)) :=
  get_num_px_jtj_spec 1000 2 1 1e9 20 (by norm_num) (by norm_num)

/-- C9: on every `LMParticles.update_function` call, the values applied
to the state are the proposed values clipped — not rejected: every
radius parameter ends in `[1e-3, 200]`, every position coordinate ends
at least `1e-3` inside the padded image bounds on its axis, and any
proposal already inside its range is applied unchanged. -/
theorem lmparticles_update_clamps {m : ℕ} (kind : Fin m → PartParamKind)
    (pad ishape : Fin 3 → ℝ) (v : Fin m → ℝ)
    (hsane : ∀ ax, 1e-3 - pad ax ≤ ishape ax + pad ax - 1e-3) :
    ∀ i, (kind i = PartParamKind.radK →
        1e-3 ≤ LMParticles_update_values kind pad ishape v i
        ∧ LMParticles_update_values kind pad ishape v i ≤ 2e2
        ∧ (1e-3 ≤ v i → v i ≤ 2e2 →
            LMParticles_update_values kind pad ishape v i = v i))
      ∧ (∀ ax, kind i = PartParamKind.posK ax →
        1e-3 - pad ax ≤ LMParticles_update_values kind pad ishape v i
        ∧ LMParticles_update_values kind pad ishape v i
            ≤ ishape ax + pad ax - 1e-3
        ∧ (1e-3 - pad ax ≤ v i → v i ≤ ishape ax + pad ax - 1e-3 →
            LMParticles_update_values kind pad ishape v i = v i)) := by
  intro i
  constructor
  · intro hk
    simp only [LMParticles_update_values, hk, npClipR]
    refine ⟨?_, ?_, ?_⟩
    · exact le_min (le_trans (by norm_num) (le_max_right _ _)) (by norm_num)
    · exact min_le_right _ _
    · intro hlo hhi
      rw [max_eq_left hlo, min_eq_left hhi]
  · intro ax hk
    simp only [LMParticles_update_values, hk, npClipR]
    refine ⟨?_, ?_, ?_⟩
    · exact le_min (le_max_right _ _) (hsane ax)
    · exact min_le_right _ _
    · intro hlo hhi
      rw [max_eq_left hlo, min_eq_left hhi]

/-- Witness for C9: one radius parameter, proposal 500 is clamped into
range. -/
theorem lmparticles_update_clamps_witness :
    1e-3 ≤ LMParticles_update_values (fun _ : Fin 1 => PartParamKind.radK)
        (fun _ => 2) (fun _ => 10) (fun _ => 500) 0
    ∧ LMParticles_update_values (fun _ : Fin 1 => PartParamKind.radK)
        (fun _ => 2) (fun _ => 10) (fun _ => 500) 0 ≤ 2e2 := by
  have h := lmparticles_update_clamps (fun _ : Fin 1 => PartParamKind.radK)
    (fun _ => 2) (fun _ => 10) (fun _ => 500) (by intro ax; norm_num) 0
  exact ⟨(h.1 rfl).1, (h.1 rfl).2.1⟩

/-- C10: the load-time self-test of `sphere_analytical_gaussian_fast`
raises (its body reads the undefined names `r` and `self` before the
inlined C code runs), so after import the name is bound to
`sphere_analytical_gaussian_trim` and the two drawing methods agree
exactly on every input. -/
theorem fast_falls_back_to_trim :
    fastSelfTestRaises = true
    ∧ ∀ dr a alpha cut, sphere_analytical_gaussian_fast dr a alpha cut
        = sphere_analytical_gaussian_trim dr a alpha cut := by
  refine ⟨rfl, fun dr a alpha cut => ?_⟩
  rw [sphere_analytical_gaussian_fast,
    if_pos (show fastSelfTestRaises = true from rfl)]

namespace LMEngine

variable {k : ℕ}

theorem increase_damping_damping (e : LMEngine k) :
    (increase_damping e).damping = fun i => e.damping i * e.increase_damp_factor :=
  rfl

theorem decrease_damping_false_damping (e : LMEngine k) :
    (decrease_damping e false).damping
      = fun i => e.damping i / e.decrease_damp_factor := rfl

theorem acceptStep_damping (e : LMEngine k) (δ : Fin k → ℝ) (er1 : ℝ) :
    (acceptStep e δ er1).damping
      = fun i => e.damping i / e.decrease_damp_factor := rfl

theorem run1Inner_allbad (M : LMModel k) (fuel : ℕ) (e : LMEngine k)
    (hbad : ∀ d : Fin k → ℝ,
      ¬ M.updateF (fun i => e.param_vals i + M.findStep d i) < e.error)
    (hchk : |M.updateF e.param_vals - e.error| ≤ 1e-7) :
    ∃ e', run1Inner M fuel e = .ok e'
      ∧ e'.param_vals = e.param_vals ∧ e'.error = e.error := by
  induction fuel generalizing e with
  | zero =>
    refine ⟨e, ?_, rfl, rfl⟩
    simp only [run1Inner]
    rw [if_neg (not_lt.mpr hchk)]
  | succ fuel ih =>
    obtain ⟨e', he', h1, h2⟩ := ih (increase_damping e) hbad hchk
    refine ⟨e', ?_, h1, h2⟩
    simp only [run1Inner]
    have hcond : ¬ (M.updateF fun i => (increase_damping e).param_vals i
        + M.findStep (increase_damping e).damping i) < (increase_damping e).error :=
      hbad _
    rw [if_neg hcond]
    exact he'

theorem internalLoop_good_false (M : LMModel k) (ud : Bool) (fuel counter : ℕ)
    (e : LMEngine k) (hhr : e.hasRun = false) :
    internalLoop M ud fuel counter false e = .ok e := by
  cases fuel with
  | zero => rfl
  | succ fuel =>
    have hct : check_terminate e = .ok False := by
      simp [check_terminate, hhr]
    simp [internalLoop, hct]

theorem run2Stuck_allbad (M : LMModel k) (fuel : ℕ) (e : LMEngine k)
    (hbad : ∀ d : Fin k → ℝ,
      ¬ M.updateF (fun i => e.param_vals i + M.findStep d i) < e.error) :
    (run2Stuck M fuel e).2 = false
    ∧ (run2Stuck M fuel e).1.error = M.updateF e.param_vals
    ∧ (run2Stuck M fuel e).1.param_vals = e.param_vals := by
  induction fuel generalizing e with
  | zero => exact ⟨rfl, rfl, rfl⟩
  | succ fuel ih =>
    have h := ih (increase_damping e) hbad
    simp only [run2Stuck]
    have hcond : ¬ (M.updateF fun i => (increase_damping e).param_vals i
        + M.findStep (increase_damping e).damping i) < (increase_damping e).error :=
      hbad _
    rw [if_neg hcond]
    exact h

/-- Shared helper: when both candidate steps and every escalated retry
are bad, `_run2` completes normally (no consistency check fires on its
revert path) and leaves `error` reassigned to the re-evaluated value at
the unchanged parameters. -/
theorem run2_bothbad_stuck (M : LMModel k) (e : LMEngine k)
    (hbad : ∀ d : Fin k → ℝ,
      ¬ M.updateF (fun i => e.param_vals i + M.findStep d i) < e.error) :
    ∃ e', run2 M e = .ok e'
      ∧ e'.error = M.updateF e.param_vals
      ∧ e'.param_vals = e.param_vals := by
  have hs := run2Stuck_allbad M
    ((decrease_damping e false).decrease_damping true).maxInnerLoop
    ((decrease_damping e false).decrease_damping true) hbad
  have hs2 : (run2Stuck M
      ((decrease_damping e false).decrease_damping true).maxInnerLoop
      ((decrease_damping e false).decrease_damping true)).2 = false := hs.1
  refine ⟨(run2Stuck M
    ((decrease_damping e false).decrease_damping true).maxInnerLoop
    ((decrease_damping e false).decrease_damping true)).1, ?_, hs.2.1, hs.2.2⟩
  simp only [run2]
  rw [if_pos ⟨not_lt.mp (hbad _), not_lt.mp (hbad _)⟩]
  rw [if_neg (by rw [hs2]; exact Bool.false_ne_true)]

end LMEngine

/-- C2 (behaviour of the code as written): `check_terminate` returns
`False` before any run; after a run with `costol` disabled it returns
exactly the claimed disjunction (all parameter changes under `paramtol`,
or absolute error decrease under `errtol`, or fractional decrease under
`fractol`, or the iteration counter at `max_iter`); but with `costol`
enabled it raises `NameError` — `check_completion` reads the unbound
name `curcos` — instead of evaluating the cosine criterion. -/
theorem lmengine_check_terminate_spec {k : ℕ} (e : LMEngine k) :
    (e.hasRun = false → LMEngine.check_terminate e = .ok False)
    ∧ (e.hasRun = true → e.costol = none →
        LMEngine.check_terminate e = .ok
          ((∀ i, |e.lastVals i - e.param_vals i| < e.paramtol)
            ∨ e.lastError - e.error < e.errtol
            ∨ (e.lastError - e.error) / e.error < e.fractol
            ∨ e.max_iter ≤ e.num_iter))
    ∧ (∀ c, e.hasRun = true → e.costol = some c →
        LMEngine.check_terminate e
          = .error "NameError: name curcos is not defined") := by
  refine ⟨?_, ?_, ?_⟩
  · intro h
    simp [LMEngine.check_terminate, h]
  · intro h hc
    simp only [LMEngine.check_terminate, h, if_true,
      LMEngine.check_completion, hc, Except.map]
    exact congrArg Except.ok (propext (by tauto))
  · intro c h hc
    simp [LMEngine.check_terminate, LMEngine.check_completion, h, hc, Except.map]

/-- Witness for C2: before any run `check_terminate` is `ok False`; with
`costol` enabled and a run done, it is the `NameError`. -/
theorem lmengine_check_terminate_spec_witness :
    LMEngine.check_terminate engW = .ok False
    ∧ LMEngine.check_terminate { engW with hasRun := true, costol := some 0.5 }
        = .error "NameError: name curcos is not defined" :=
  ⟨(lmengine_check_terminate_spec engW).1 rfl,
   (lmengine_check_terminate_spec
      { engW with hasRun := true, costol := some 0.5 }).2.2 0.5 rfl rfl⟩

/-- C4: `increase_damping` multiplies every damping entry by exactly
`increase_damp_factor` and `decrease_damping` divides by exactly
`decrease_damp_factor` (strict increase/decrease at the defaults 3 and 8
on positive damping); in `_run1`, an accepted first trial performs
exactly one decrease, and a rejected trial escalates by exactly one
factor-3 increase before the (here accepted) retry, which is then
followed by the single decrease. -/
theorem lm_damping_response {k : ℕ} (e : LMEngine k) (M : LMModel k) :
    ((LMEngine.increase_damping e).damping
        = fun i => e.damping i * e.increase_damp_factor)
    ∧ ((LMEngine.decrease_damping e false).damping
        = fun i => e.damping i / e.decrease_damp_factor)
    ∧ (e.increase_damp_factor = 3 → ∀ i, 0 < e.damping i →
        e.damping i < (LMEngine.increase_damping e).damping i
        ∧ (LMEngine.increase_damping e).damping i = 3 * e.damping i)
    ∧ (e.decrease_damp_factor = 8 → ∀ i, 0 < e.damping i →
        (LMEngine.decrease_damping e false).damping i < e.damping i
        ∧ (LMEngine.decrease_damping e false).damping i = e.damping i / 8)
    ∧ (M.updateF (fun i => e.param_vals i + M.findStep e.damping i) < e.error →
        LMEngine.run1 M e = .ok (LMEngine.acceptStep e (M.findStep e.damping)
          (M.updateF fun i => e.param_vals i + M.findStep e.damping i))
        ∧ ∀ i, (LMEngine.acceptStep e (M.findStep e.damping)
            (M.updateF fun i => e.param_vals i + M.findStep e.damping i)).damping i
          = e.damping i / e.decrease_damp_factor)
    ∧ (¬ M.updateF (fun i => e.param_vals i + M.findStep e.damping i) < e.error →
       |M.updateF e.param_vals - e.error| ≤ 1e-7 →
       e.maxInnerLoop = 15 →
       M.updateF (fun i => e.param_vals i
           + M.findStep (fun j => e.damping j * e.increase_damp_factor) i)
         < e.error →
       ∃ e', LMEngine.run1 M e = .ok e'
         ∧ e'.damping = fun i =>
             e.damping i * e.increase_damp_factor / e.decrease_damp_factor) := by
  refine ⟨rfl, rfl, ?_, ?_, ?_, ?_⟩
  · intro h3 i hd
    have hp : (LMEngine.increase_damping e).damping i
        = e.damping i * e.increase_damp_factor := rfl
    rw [hp, h3]
    exact ⟨by linarith, by ring⟩
  · intro h8 i hd
    have hp : (LMEngine.decrease_damping e false).damping i
        = e.damping i / e.decrease_damp_factor := rfl
    rw [hp, h8]
    exact ⟨by linarith, rfl⟩
  · intro hacc
    refine ⟨?_, fun i => by rw [LMEngine.acceptStep_damping]⟩
    simp only [LMEngine.run1]
    rw [if_pos hacc]
  · intro hrej hchk hfuel hacc2
    refine ⟨LMEngine.acceptStep (LMEngine.increase_damping e)
      (M.findStep (LMEngine.increase_damping e).damping)
      (M.updateF fun i => (LMEngine.increase_damping e).param_vals i
        + M.findStep (LMEngine.increase_damping e).damping i), ?_, rfl⟩
    simp only [LMEngine.run1]
    rw [if_neg hrej, if_neg (not_lt.mpr hchk), hfuel,
      show (15:ℕ) = 14 + 1 from rfl]
    simp only [LMEngine.run1Inner]
    have hacc2' : (M.updateF fun i => (LMEngine.increase_damping e).param_vals i
        + M.findStep (LMEngine.increase_damping e).damping i)
        < (LMEngine.increase_damping e).error := hacc2
    rw [if_pos hacc2']

/-- Witness for C4: against `engW`, `modelAcc` accepts the first trial
(one decrease); `modelRetry` rejects the first trial and accepts the
factor-3-escalated retry. -/
theorem lm_damping_response_witness :
    (LMEngine.run1 modelAcc engW
        = .ok (LMEngine.acceptStep engW (modelAcc.findStep engW.damping)
            (modelAcc.updateF fun i => engW.param_vals i
              + modelAcc.findStep engW.damping i)))
    ∧ (∃ e', LMEngine.run1 modelRetry engW = .ok e'
        ∧ e'.damping = fun i => engW.damping i * engW.increase_damp_factor
            / engW.decrease_damp_factor) := by
  refine ⟨((lm_damping_response engW modelAcc).2.2.2.2.1 ?_).1,
    (lm_damping_response engW modelRetry).2.2.2.2.2 ?_ ?_ rfl ?_⟩
  · norm_num [modelAcc, engW]
  · norm_num [modelRetry, engW]
  · norm_num [modelRetry, engW]
  · norm_num [modelRetry, engW]

/-- C5 amended: the revert consistency check exists in `do_run_1`
(tolerance 1e-7: a rejected first trial with a mismatched re-evaluated
error raises; when it matches, a fully stuck run returns with
`param_vals` and `error` at their pre-step values) and in
`do_internal_run` (1e-6, on each rejected step, again leaving
`param_vals` and `error` unchanged when it passes); but `do_run_2`'s own
revert paths perform no such check: with both candidate steps and all
escalations bad it returns normally regardless of any mismatch, and its
stuck path reassigns `error` to the re-evaluated value. -/
theorem lm_revert_checks {k : ℕ} (M : LMModel k) (e : LMEngine k) (ic : ℕ) :
    (¬ M.updateF (fun i => e.param_vals i + M.findStep e.damping i) < e.error →
       |M.updateF e.param_vals - e.error| > 1e-7 →
       LMEngine.run1 M e = .error "Function updates are not exact.")
    ∧ ((∀ d : Fin k → ℝ,
          ¬ M.updateF (fun i => e.param_vals i + M.findStep d i) < e.error) →
       |M.updateF e.param_vals - e.error| ≤ 1e-7 →
       ∃ e', LMEngine.run1 M e = .ok e'
         ∧ e'.param_vals = e.param_vals ∧ e'.error = e.error)
    ∧ (e.hasRun = false → ic < e.run_length →
       ¬ M.updateF (fun i => e.param_vals i + M.findStep e.damping i) < e.error →
       |e.error - M.updateF e.param_vals| > 1e-6 →
       LMEngine.do_internal_run M e ic true
         = .error "Function updates are not exact.")
    ∧ (e.hasRun = false → ic < e.run_length →
       ¬ M.updateF (fun i => e.param_vals i + M.findStep e.damping i) < e.error →
       |e.error - M.updateF e.param_vals| ≤ 1e-6 →
       LMEngine.do_internal_run M e ic true = .ok e)
    ∧ ((∀ d : Fin k → ℝ,
          ¬ M.updateF (fun i => e.param_vals i + M.findStep d i) < e.error) →
       ∃ e', LMEngine.run2 M e = .ok e'
         ∧ e'.error = M.updateF e.param_vals
         ∧ e'.param_vals = e.param_vals) := by
  refine ⟨?_, ?_, ?_, ?_, LMEngine.run2_bothbad_stuck M e⟩
  · intro hrej hmis
    simp only [LMEngine.run1]
    rw [if_neg hrej, if_pos hmis]
  · intro hbad hchk
    have h := LMEngine.run1Inner_allbad M e.maxInnerLoop e hbad hchk
    obtain ⟨e', he', h1, h2⟩ := h
    refine ⟨e', ?_, h1, h2⟩
    simp only [LMEngine.run1]
    rw [if_neg (hbad _), if_neg (not_lt.mpr hchk)]
    exact he'
  · intro hhr hic hbad hmis
    have hct : LMEngine.check_terminate e = .ok False := by
      simp [LMEngine.check_terminate, hhr]
    rw [LMEngine.do_internal_run]
    simp only [LMEngine.internalLoop, hct]
    rw [if_pos (by simp [hic]), if_neg hbad, if_pos hmis]
  · intro hhr hic hbad hchk
    have hct : LMEngine.check_terminate e = .ok False := by
      simp [LMEngine.check_terminate, hhr]
    rw [LMEngine.do_internal_run]
    simp only [LMEngine.internalLoop, hct]
    rw [if_pos (by simp [hic]), if_neg hbad, if_neg (not_lt.mpr hchk)]
    exact LMEngine.internalLoop_good_false M true _ _ e hhr

/-- C5 counterexample: against `modelBad`, `engBad`'s recorded error 5
disagrees with the model's value 10 at the current parameters by
5 > 1e-6; both `_run2` trial steps are rejected, its revert path
re-evaluates the error and — contrary to the claim — raises nothing,
returning `ok` with `error` silently reassigned to 10. -/
theorem run2_revert_unchecked_counterexample :
    ((LMEngine.run2 modelBad engBad).toOption.map
        (fun e' => (e'.error, e'.param_vals 0)) = some (10, 0))
    ∧ |modelBad.updateF engBad.param_vals - engBad.error| > 1e-6
    ∧ engBad.error ≠ 10 := by
  have hbad : ∀ d : Fin 1 → ℝ,
      ¬ modelBad.updateF (fun i => engBad.param_vals i
        + modelBad.findStep d i) < engBad.error := by
    intro d
    norm_num [modelBad, engBad, engW]
  obtain ⟨e', he', h1, h2⟩ := LMEngine.run2_bothbad_stuck modelBad engBad hbad
  refine ⟨?_, ?_, ?_⟩
  · rw [he']
    simp only [Except.toOption, Option.map]
    have hv : e'.param_vals 0 = 0 := by rw [h2]; norm_num [engBad, engW]
    have herr : e'.error = 10 := by
      rw [h1]; norm_num [modelBad, engBad, engW]
    rw [hv, herr]
  · norm_num [modelBad, engBad, engW]
  · norm_num [engBad, engW]

/-- Witness for the amended C5: `modelBad`/`engBad` exercise the raising
do_run_1 path (first trial rejected, mismatch 5 > 1e-7) and the
unchecked do_run_2 path. -/
theorem lm_revert_checks_witness :
    LMEngine.run1 modelBad engBad = .error "Function updates are not exact."
    ∧ (∃ e', LMEngine.run2 modelBad engBad = .ok e'
        ∧ e'.error = modelBad.updateF engBad.param_vals
        ∧ e'.param_vals = engBad.param_vals)
    ∧ LMEngine.do_internal_run modelBad engBad 0 true
        = .error "Function updates are not exact." := by
  have h := lm_revert_checks modelBad engBad 0
  refine ⟨h.1 ?_ ?_, h.2.2.2.2 ?_, h.2.2.1 rfl ?_ ?_ ?_⟩
  · norm_num [modelBad, engBad, engW]
  · norm_num [modelBad, engBad, engW]
  · intro d
    norm_num [modelBad, engBad, engW]
  · norm_num [engBad, engW]
  · norm_num [modelBad, engBad, engW]
  · norm_num [modelBad, engBad, engW]

end
